import Mathlib

/-!
Shallow embedding of `src/kopf/reactor/queueing.py`: the per-object event
queueing core of the kopf operator framework.  The source has three parts,
all modelled here:

* `watcher` (lines 48-87): consumes the watch stream, routes each event to
  the per-object queue keyed by `(resource, uid)`, creating the queue and
  spawning a `worker` on first use, and on stream end runs
  `_wait_for_depletion` before closing the scheduler in a `finally:` block.
* `worker` (lines 90-152): the per-key consumption loop — an outer
  `queue.get` bounded by `worker_idle_timeout`, an inner batching loop
  bounded by `worker_batch_window` that keeps only the newest real event
  and records an `EOS` sighting in `shouldstop`, dispatch to the handler
  with exceptions swallowed, and a `finally:` that deletes the key's queue
  from the shared table tolerating `KeyError`.
* `_wait_for_depletion` (lines 155-171): pushes `EOS` onto every queue,
  polls in `worker_exit_timeout / 100` sleeps while the table is non-empty
  and workers are active and the elapsed time is below
  `worker_exit_timeout`, then logs a warning naming the leftover keys if
  the table is still non-empty.

Timing is modelled with natural-number instants: every queued item carries
the instant it was put, and a `queue.get` with timeout `w` started at
instant `t` succeeds on the queue's next item iff that item's put-instant
is below `t + w`.  Concurrency between the watcher and the workers is
modelled by an explicit small-step transition relation `WStep` over the
shared queue table.
-/

set_option linter.unusedVariables false

namespace KopfQueueing

/-- Items flowing through a per-object queue: a real watch event carrying a
payload, or the end-of-stream sentinel (`EOS = object()` in the source, a
marker distinct from every event and compared by identity, hence a sum
type here). -/
inductive Item (α : Type) : Type
  | ev (e : α)
  | eos
deriving DecidableEq

/-- Ways the `while not shouldstop` loop of `worker` finishes:
`idleTimeout` is the `except asyncio.TimeoutError: break` on the outer
`queue.get`, `eosCandidate` is the `if event is EOS: break` after batching,
and `stopRequested` is the loop condition turning false after `shouldstop`
was set during batching. -/
inductive ExitReason : Type
  | idleTimeout
  | eosCandidate
  | stopRequested
deriving DecidableEq

/-- Result of the body of `worker` (its `try:` part): the events passed to
the handler in order, the handler exceptions that were caught and logged,
and how the loop ended. -/
structure WorkerResult (α ε : Type) where
  calls : List α
  logs : List ε
  reason : ExitReason
deriving DecidableEq

/-- State of the inner batching loop of `worker` when it leaves on a
`worker_batch_window` timeout: the candidate event held, the accumulated
`shouldstop` flag, the instant the timeout fired, and the items still
queued. -/
structure CoalesceOut (α : Type) where
  event : Item α
  stop : Bool
  time : Nat
  rest : List (Nat × Item α)
deriving DecidableEq

/-- Lookup in the queue table, `queues[key]`: `none` models `KeyError`. -/
def lookupTbl {κ β : Type} [DecidableEq κ] : List (κ × β) → κ → Option β
  | [], _ => none
  | (k', v) :: rest, k => if k' = k then some v else lookupTbl rest k

/-- Keys of the queue table, `queues.keys()` (in insertion order, as for a
Python dict). -/
def tblKeys {κ β : Type} (t : List (κ × β)) : List κ :=
  t.map Prod.fst

/-- Deletion from the queue table tolerating absence: the effect of
`try: del queues[key] except KeyError: pass` in the worker's `finally:`
block (lines 148-152).  A present entry is removed, an absent key leaves
the table unchanged (the swallowed `KeyError`). -/
def delKey {κ β : Type} [DecidableEq κ] : List (κ × β) → κ → List (κ × β)
  | [], _ => []
  | (k', v) :: rest, k => if k' = k then delKey rest k else (k', v) :: delKey rest k

/-- Append an item to the queue stored under `k`: `queues[key].put(event)`
when the key is present. -/
def putQueue {κ α : Type} [DecidableEq κ] (t : List (κ × List (Item α))) (k : κ)
    (it : Item α) : List (κ × List (Item α)) :=
  t.map fun p => if p.1 = k then (p.1, p.2 ++ [it]) else p

/-- Replace the queue stored under `k` (used when the owning worker pops an
item off its queue with `queue.get()`). -/
def setQueue {κ α : Type} [DecidableEq κ] (t : List (κ × List (Item α))) (k : κ)
    (q : List (Item α)) : List (κ × List (Item α)) :=
  t.map fun p => if p.1 = k then (p.1, q) else p

/-- Push the `EOS` marker onto every queue of the table: the first step of
`_wait_for_depletion` (lines 157-159). -/
def broadcastEOS {κ α : Type} (t : List (κ × List (Item α))) : List (κ × List (Item α)) :=
  t.map fun p => (p.1, p.2 ++ [Item.eos])

/-- Effect on the queue table of one iteration of the watcher's
`async for` body (lines 73-80): `try: await queues[key].put(event)` and on
`KeyError` create a fresh queue holding the event and insert it under the
key. -/
def dispatchTable {κ α : Type} [DecidableEq κ] (t : List (κ × List (Item α))) (k : κ)
    (e : α) : List (κ × List (Item α)) :=
  match lookupTbl t k with
  | some _ => putQueue t k (Item.ev e)
  | none => t ++ [(k, [Item.ev e])]

/-- Effect on the set of live workers of the same iteration: a worker is
spawned (`await scheduler.spawn(worker(...))`) exactly in the `KeyError`
branch, i.e. only when the key had no queue in the table. -/
def dispatchWorkers {κ α : Type} [DecidableEq κ] (t : List (κ × List (Item α)))
    (w : List κ) (k : κ) : List κ :=
  match lookupTbl t k with
  | some _ => w
  | none => w ++ [k]

/-- Inner `while True` batching loop of `worker` (lines 123-132), started
at instant `t` with `event` as the candidate just received: each round does
`next_event = await asyncio.wait_for(queue.get(), timeout=worker_batch_window)`;
on success `shouldstop = shouldstop or next_event is EOS` and
`event = prev_event if next_event is EOS else next_event`; the loop is left
by the `asyncio.TimeoutError` of an empty window. -/
def coalesce {α : Type} (worker_batch_window : Nat) :
    Nat → Item α → Bool → List (Nat × Item α) → CoalesceOut α
  | t, event, shouldstop, [] => ⟨event, shouldstop, t + worker_batch_window, []⟩
  | t, event, shouldstop, (a, it) :: rest =>
    if a < t + worker_batch_window then
      coalesce worker_batch_window (max t a)
        (match it with | Item.eos => event | Item.ev _ => it)
        (shouldstop || (match it with | Item.eos => true | Item.ev _ => false))
        rest
    else ⟨event, shouldstop, t + worker_batch_window, (a, it) :: rest⟩

theorem coalesce_rest_length_le {α : Type} (bw : Nat) (t : Nat) (e : Item α) (ss : Bool)
    (l : List (Nat × Item α)) : (coalesce bw t e ss l).rest.length ≤ l.length := by
  induction l generalizing t e ss with
  | nil => simp [coalesce]
  | cons hd tl ih =>
    obtain ⟨a, it⟩ := hd
    by_cases hc : a < t + bw
    · simp only [coalesce, if_pos hc]
      exact le_trans (ih _ _ _) (Nat.le_succ _)
    · simp [coalesce, hc]

/-- Outer `while not shouldstop` loop of `worker` (lines 110-143) in the
timed model: `t` is the current instant, `pending` the items of this key's
queue (put-instant and item) not yet taken.  Each iteration attempts
`await asyncio.wait_for(queue.get(), timeout=worker_idle_timeout)`
(timeout → `break`), batches further items with `coalesce`, breaks if the
candidate is the `EOS` marker, and otherwise invokes the handler —
`except Exception: logger.exception(...)` swallows a handler failure, which
is only logged.  `dur e` is the time the handler spends on event `e`. -/
def workerLoop {α ε : Type} (worker_idle_timeout worker_batch_window : Nat)
    (handler : α → Except ε Unit) (dur : α → Nat)
    (t : Nat) (shouldstop : Bool) (pending : List (Nat × Item α)) : WorkerResult α ε :=
  if shouldstop then ⟨[], [], ExitReason.stopRequested⟩
  else
    match pending with
    | [] => ⟨[], [], ExitReason.idleTimeout⟩
    | (a, it) :: rest =>
      if a < t + worker_idle_timeout then
        let c := coalesce worker_batch_window (max t a) it false rest
        match c.event with
        | Item.eos => ⟨[], [], ExitReason.eosCandidate⟩
        | Item.ev e =>
          let res := workerLoop worker_idle_timeout worker_batch_window handler dur
            (c.time + dur e) c.stop c.rest
          ⟨e :: res.calls,
           (match handler e with | Except.ok _ => [] | Except.error err => [err]) ++ res.logs,
           res.reason⟩
      else ⟨[], [], ExitReason.idleTimeout⟩
termination_by pending.length
decreasing_by
  simp only [List.length_cons]
  exact Nat.lt_succ_of_le (coalesce_rest_length_le _ _ _ _ _)

theorem workerLoop_stop {α ε : Type} (idle bw : Nat) (handler : α → Except ε Unit)
    (dur : α → Nat) (t : Nat) (pending : List (Nat × Item α)) :
    workerLoop idle bw handler dur t true pending = ⟨[], [], ExitReason.stopRequested⟩ := by
  rw [workerLoop.eq_def]
  simp

theorem workerLoop_nil {α ε : Type} (idle bw : Nat) (handler : α → Except ε Unit)
    (dur : α → Nat) (t : Nat) :
    workerLoop idle bw handler dur t false [] = ⟨[], [], ExitReason.idleTimeout⟩ := by
  rw [workerLoop.eq_def]
  simp

theorem workerLoop_cons_late {α ε : Type} (idle bw : Nat) (handler : α → Except ε Unit)
    (dur : α → Nat) (t a : Nat) (it : Item α) (rest : List (Nat × Item α))
    (ha : ¬ a < t + idle) :
    workerLoop idle bw handler dur t false ((a, it) :: rest) =
      ⟨[], [], ExitReason.idleTimeout⟩ := by
  rw [workerLoop.eq_def]
  simp [ha]

theorem workerLoop_cons {α ε : Type} (idle bw : Nat) (handler : α → Except ε Unit)
    (dur : α → Nat) (t a : Nat) (it : Item α) (rest : List (Nat × Item α))
    (ha : a < t + idle) :
    workerLoop idle bw handler dur t false ((a, it) :: rest) =
      (match (coalesce bw (max t a) it false rest).event with
       | Item.eos => ⟨[], [], ExitReason.eosCandidate⟩
       | Item.ev e =>
         let res := workerLoop idle bw handler dur
           ((coalesce bw (max t a) it false rest).time + dur e)
           (coalesce bw (max t a) it false rest).stop
           (coalesce bw (max t a) it false rest).rest
         ⟨e :: res.calls,
          (match handler e with | Except.ok _ => [] | Except.error err => [err]) ++ res.logs,
          res.reason⟩) := by
  rw [workerLoop.eq_def]
  simp [ha]

/-- Result of a full `worker` run (lines 90-152): the outcome of the loop
body, and the queue table after the `finally:` block removed this worker's
own key (`try: del queues[key] except KeyError: pass`). -/
structure WorkerOut (κ α ε : Type) where
  calls : List α
  logs : List ε
  reason : ExitReason
  queues : List (κ × List (Item α))

/-- The `worker` coroutine of the source: run the consumption loop over the
items put into this key's queue (`arrivals`: put-instant and item, in queue
order), then — whatever the exit path — delete the key's entry from the
shared table. -/
def worker {κ α ε : Type} [DecidableEq κ] (worker_idle_timeout worker_batch_window : Nat)
    (handler : α → Except ε Unit) (dur : α → Nat)
    (queues : List (κ × List (Item α))) (key : κ)
    (t0 : Nat) (arrivals : List (Nat × Item α)) : WorkerOut κ α ε :=
  let r := workerLoop worker_idle_timeout worker_batch_window handler dur t0 false arrivals
  ⟨r.calls, r.logs, r.reason, delKey queues key⟩

/-- How the watcher's consumption of the event stream ended (line 73):
`exhausted` is the normal end of `infinite_watch`, `failed e` is an
exception raised by the stream — or the `CancelledError` of a cancelled
watcher task, which propagates through `async for` the same way. -/
inductive StreamOutcome (ε : Type) : Type
  | exhausted
  | failed (e : ε)
deriving DecidableEq

/-- Shutdown-path actions of `watcher` in order: running
`_wait_for_depletion`, awaiting `asyncio.shield(scheduler.close())`, and
re-raising the stream's error to the caller. -/
inductive ShutdownAction (ε : Type) : Type
  | deplete
  | closePool
  | raiseErr (e : ε)
deriving DecidableEq

/-- Shutdown control flow of `watcher` (lines 70-87).  The call to
`_wait_for_depletion` stands on the normal path inside the `try:` block,
directly after the `async for` loop; the `finally:` block holds only
`await asyncio.shield(scheduler.close())`.  So: a normally exhausted
stream runs depletion and then the pool closure; a stream error (or a
cancellation) aborts the `async for`, skips the depletion call, runs the
`finally:` pool closure, and then propagates to the watcher's caller. -/
def watcherShutdownTrace {ε : Type} : StreamOutcome ε → List (ShutdownAction ε)
  | StreamOutcome.exhausted => [ShutdownAction.deplete, ShutdownAction.closePool]
  | StreamOutcome.failed e => [ShutdownAction.closePool, ShutdownAction.raiseErr e]

/-- The whole `watcher` (lines 48-87) over the events the stream yielded
before terminating: the queue table and live-worker list built by the
`async for` body, paired with the shutdown actions in order. -/
def watcher {κ α ε : Type} [DecidableEq κ] (events : List (κ × α))
    (outcome : StreamOutcome ε) :
    (List (κ × List (Item α)) × List κ) × List (ShutdownAction ε) :=
  (events.foldl (fun st ke => (dispatchTable st.1 ke.1 ke.2, dispatchWorkers st.1 st.2 ke.1))
    ([], []),
   watcherShutdownTrace outcome)

/-- Poll loop of `_wait_for_depletion` (lines 163-167):
`while queues and scheduler.active_count and elapsed < worker_exit_timeout:
await asyncio.sleep(worker_exit_timeout / 100.)`.  `obs n` observes the
shared world at the loop's n-th check: the keys still in the table and the
scheduler's active count.  Each sleep lasts `worker_exit_timeout / 100`,
so the elapsed-time guard fails exactly at the 100th check. -/
def pollSteps {κ : Type} (obs : Nat → List κ × Nat) : Nat → Nat → Nat
  | 0, n => n
  | Nat.succ fuel, n =>
    if (obs n).1.isEmpty = false ∧ (obs n).2 ≠ 0 then pollSteps obs fuel (n + 1) else n

/-- Index of the check at which the poll loop of `_wait_for_depletion`
stops. -/
def pollEnd {κ : Type} (obs : Nat → List κ × Nat) : Nat :=
  pollSteps obs 100 0

/-- Warning of `_wait_for_depletion` (lines 169-171): after the poll loop,
`if queues: logger.warning(\x22Unprocessed queues left for %r.\x22,
list(queues.keys()))` — `some ks` is the warning naming the keys `ks` still
present, `none` is no warning; either way the function returns and the
watcher proceeds to the pool closure. -/
def wait_for_depletion {κ : Type} (obs : Nat → List κ × Nat) : Option (List κ) :=
  if (obs (pollEnd obs)).1.isEmpty then none else some (obs (pollEnd obs)).1

/-- Joint state of the cooperative tasks: the stream events not yet
consumed by the watcher, the shared queue table `queues`, and the keys of
the live workers (a worker is live from its `scheduler.spawn` until its
`finally:` block runs; a key occurring twice would mean two live workers
for one object). -/
structure SysState (κ α : Type) where
  stream : List (κ × α)
  table : List (κ × List (Item α))
  workers : List κ

/-- Small-step interleaving semantics of `watcher` and the workers over
the shared queue table.  asyncio runs one task between awaits atomically;
each constructor is one such atomic stretch:
`dispatch` is one body iteration of the watcher's `async for` (lines
73-80); `take` is a worker popping an item off its own queue (`queue.get`,
lines 118 and 126); `terminate` is a worker's exit through its `finally:`
block — the same single block whatever caused the exit: idle timeout,
`EOS`, a stop request, or an exception or cancellation (lines 146-152);
`deplete` is `_wait_for_depletion` pushing `EOS` onto every queue once the
stream is exhausted (lines 157-159). -/
inductive WStep {κ α : Type} [DecidableEq κ] : SysState κ α → SysState κ α → Prop
  | dispatch (s : SysState κ α) (k : κ) (e : α) (rest : List (κ × α))
      (hs : s.stream = (k, e) :: rest) :
      WStep s ⟨rest, dispatchTable s.table k e, dispatchWorkers s.table s.workers k⟩
  | take (s : SysState κ α) (k : κ) (it : Item α) (q : List (Item α))
      (hw : k ∈ s.workers) (hq : lookupTbl s.table k = some (it :: q)) :
      WStep s ⟨s.stream, setQueue s.table k q, s.workers⟩
  | terminate (s : SysState κ α) (k : κ) (hw : k ∈ s.workers) :
      WStep s ⟨s.stream, delKey s.table k, s.workers.erase k⟩
  | deplete (s : SysState κ α) (hs : s.stream = []) :
      WStep s ⟨[], broadcastEOS s.table, s.workers⟩

/-- Invariant of the queueing system: no two live workers share a key, the
table holds at most one queue per key, and every live worker's key still
has its queue in the table. -/
def SysInv {κ α : Type} (s : SysState κ α) : Prop :=
  s.workers.Nodup ∧ (tblKeys s.table).Nodup ∧ ∀ k ∈ s.workers, k ∈ tblKeys s.table

theorem tblKeys_putQueue {κ α : Type} [DecidableEq κ] (t : List (κ × List (Item α)))
    (k : κ) (it : Item α) : tblKeys (putQueue t k it) = tblKeys t := by
  induction t with
  | nil => rfl
  | cons p rest ih =>
    by_cases h : p.1 = k <;> simp [putQueue, tblKeys, h] at ih ⊢ <;> exact ih

theorem tblKeys_setQueue {κ α : Type} [DecidableEq κ] (t : List (κ × List (Item α)))
    (k : κ) (q : List (Item α)) : tblKeys (setQueue t k q) = tblKeys t := by
  induction t with
  | nil => rfl
  | cons p rest ih =>
    by_cases h : p.1 = k <;> simp [setQueue, tblKeys, h] at ih ⊢ <;> exact ih

theorem tblKeys_broadcastEOS {κ α : Type} (t : List (κ × List (Item α))) :
    tblKeys (broadcastEOS t) = tblKeys t := by
  induction t with
  | nil => rfl
  | cons p rest ih => simp [broadcastEOS, tblKeys]

theorem tblKeys_append {κ α : Type} (t : List (κ × List (Item α))) (k : κ)
    (q : List (Item α)) : tblKeys (t ++ [(k, q)]) = tblKeys t ++ [k] := by
  simp [tblKeys]

theorem lookupTbl_none_iff {κ β : Type} [DecidableEq κ] (t : List (κ × β)) (k : κ) :
    lookupTbl t k = none ↔ k ∉ tblKeys t := by
  induction t with
  | nil => simp [lookupTbl, tblKeys]
  | cons p rest ih =>
    obtain ⟨k', v⟩ := p
    by_cases h : k' = k
    · subst h
      simp [lookupTbl, tblKeys]
    · simp [lookupTbl, tblKeys, h, ih, Ne.symm h]

theorem lookupTbl_delKey {κ β : Type} [DecidableEq κ] (t : List (κ × β)) (k : κ) :
    lookupTbl (delKey t k) k = none := by
  induction t with
  | nil => rfl
  | cons p rest ih =>
    obtain ⟨k', v⟩ := p
    by_cases h : k' = k
    · simpa [delKey, h] using ih
    · simpa [delKey, h, lookupTbl] using ih

theorem delKey_of_lookupTbl_none {κ β : Type} [DecidableEq κ] (t : List (κ × β)) (k : κ)
    (h : lookupTbl t k = none) : delKey t k = t := by
  induction t with
  | nil => rfl
  | cons p rest ih =>
    obtain ⟨k', v⟩ := p
    by_cases hk : k' = k
    · simp [lookupTbl, hk] at h
    · simp only [lookupTbl, if_neg hk] at h
      simp [delKey, hk, ih h]

theorem tblKeys_cons {κ β : Type} (p : κ × β) (t : List (κ × β)) :
    tblKeys (p :: t) = p.1 :: tblKeys t := rfl

theorem mem_tblKeys_of_mem_delKey {κ β : Type} [DecidableEq κ] (t : List (κ × β))
    (k k' : κ) (h : k' ∈ tblKeys (delKey t k)) : k' ∈ tblKeys t := by
  induction t with
  | nil => simp [delKey, tblKeys] at h
  | cons p rest ih =>
    obtain ⟨k0, v⟩ := p
    rw [tblKeys_cons, List.mem_cons]
    by_cases hk : k0 = k
    · simp only [delKey, if_pos hk] at h
      exact Or.inr (ih h)
    · simp only [delKey, if_neg hk, tblKeys_cons, List.mem_cons] at h
      rcases h with h | h
      · exact Or.inl h
      · exact Or.inr (ih h)

theorem mem_tblKeys_delKey_of_ne {κ β : Type} [DecidableEq κ] (t : List (κ × β))
    (k k' : κ) (hne : k' ≠ k) : k' ∈ tblKeys (delKey t k) ↔ k' ∈ tblKeys t := by
  constructor
  · exact mem_tblKeys_of_mem_delKey t k k'
  · intro h
    induction t with
    | nil => simp [tblKeys] at h
    | cons p rest ih =>
      obtain ⟨k0, v⟩ := p
      rw [tblKeys_cons, List.mem_cons] at h
      by_cases hk : k0 = k
      · subst hk
        rcases h with h | h
        · exact absurd h hne
        · simpa [delKey] using ih h
      · simp only [delKey, if_neg hk, tblKeys_cons, List.mem_cons]
        rcases h with h | h
        · exact Or.inl h
        · exact Or.inr (ih h)

theorem nodup_tblKeys_delKey {κ β : Type} [DecidableEq κ] (t : List (κ × β)) (k : κ)
    (h : (tblKeys t).Nodup) : (tblKeys (delKey t k)).Nodup := by
  induction t with
  | nil => simp [delKey, tblKeys]
  | cons p rest ih =>
    obtain ⟨k0, v⟩ := p
    rw [tblKeys_cons, List.nodup_cons] at h
    by_cases hk : k0 = k
    · simpa [delKey, hk] using ih h.2
    · simp only [delKey, if_neg hk, tblKeys_cons, List.nodup_cons]
      exact ⟨fun hmem => h.1 (mem_tblKeys_of_mem_delKey rest k k0 hmem), ih h.2⟩

theorem sysInv_step {κ α : Type} [DecidableEq κ] (s s' : SysState κ α)
    (hinv : SysInv s) (hstep : WStep s s') : SysInv s' := by
  obtain ⟨hw, ht, hsub⟩ := hinv
  cases hstep with
  | dispatch k e rest hs =>
    unfold dispatchTable dispatchWorkers
    cases hl : lookupTbl s.table k with
    | some q =>
      exact ⟨hw, by rw [tblKeys_putQueue]; exact ht,
        fun k' hk' => by rw [tblKeys_putQueue]; exact hsub k' hk'⟩
    | none =>
      have hknot : k ∉ tblKeys s.table := (lookupTbl_none_iff _ _).mp hl
      have hkw : k ∉ s.workers := fun hmem => hknot (hsub k hmem)
      refine ⟨?_, ?_, ?_⟩
      · simp [List.nodup_append, hw, hkw]
      · rw [tblKeys_append]
        simp [List.nodup_append, ht, hknot]
      · intro k' hk'
        rw [tblKeys_append]
        rcases List.mem_append.mp hk' with h | h
        · exact List.mem_append.mpr (Or.inl (hsub k' h))
        · exact List.mem_append.mpr (Or.inr h)
  | take k it q hw' hq =>
    exact ⟨hw, by rw [tblKeys_setQueue]; exact ht,
      fun k' hk' => by rw [tblKeys_setQueue]; exact hsub k' hk'⟩
  | terminate k hw' =>
    refine ⟨hw.erase k, nodup_tblKeys_delKey _ _ ht, ?_⟩
    intro k' hk'
    have h1 : k' ≠ k ∧ k' ∈ s.workers := (List.Nodup.mem_erase_iff hw).mp hk'
    exact (mem_tblKeys_delKey_of_ne _ _ _ h1.1).mpr (hsub k' h1.2)
  | deplete hs =>
    exact ⟨hw, by rw [tblKeys_broadcastEOS]; exact ht,
      fun k' hk' => by rw [tblKeys_broadcastEOS]; exact hsub k' hk'⟩

theorem sysInv_reachable {κ α : Type} [DecidableEq κ] (events : List (κ × α))
    (s : SysState κ α)
    (h : Relation.ReflTransGen WStep ⟨events, [], []⟩ s) : SysInv s := by
  induction h with
  | refl => exact ⟨List.nodup_nil, List.nodup_nil, by simp [tblKeys]⟩
  | tail hsteps hstep ih => exact sysInv_step _ _ ih hstep

/-- Every transition under which a live worker disappears is that worker's
own `finally:` exit, and it leaves the table with no entry for the
worker's key. -/
theorem step_worker_gone_removes_key {κ α : Type} [DecidableEq κ]
    (s s' : SysState κ α) (k : κ) (hstep : WStep s s')
    (hk : k ∈ s.workers) (hk' : k ∉ s'.workers) : lookupTbl s'.table k = none := by
  cases hstep with
  | dispatch k0 e rest hs =>
    exfalso
    apply hk'
    unfold dispatchWorkers
    cases lookupTbl s.table k0 with
    | some q => exact hk
    | none => exact List.mem_append.mpr (Or.inl hk)
  | take k0 it q hw hq => exact absurd hk hk'
  | terminate k0 hw =>
    by_cases hkk : k = k0
    · subst hkk
      exact lookupTbl_delKey _ _
    · exact absurd ((List.mem_erase_of_ne hkk).mpr hk) hk'
  | deplete hs => exact absurd hk hk'

theorem workerLoop_handler_indep {α ε : Type} (idle bw : Nat)
    (h h' : α → Except ε Unit) (dur : α → Nat) :
    ∀ (n : Nat) (t : Nat) (ss : Bool) (pending : List (Nat × Item α)),
      pending.length ≤ n →
      (workerLoop idle bw h dur t ss pending).calls =
        (workerLoop idle bw h' dur t ss pending).calls ∧
      (workerLoop idle bw h dur t ss pending).reason =
        (workerLoop idle bw h' dur t ss pending).reason := by
  intro n
  induction n with
  | zero =>
    intro t ss pending hlen
    have hnil : pending = [] := List.eq_nil_of_length_eq_zero (Nat.le_zero.mp hlen)
    subst hnil
    cases ss with
    | false => simp [workerLoop_nil]
    | true => simp [workerLoop_stop]
  | succ n ih =>
    intro t ss pending hlen
    cases ss with
    | true => simp [workerLoop_stop]
    | false =>
      cases pending with
      | nil => simp [workerLoop_nil]
      | cons p rest =>
        obtain ⟨a, it⟩ := p
        by_cases ha : a < t + idle
        · rw [workerLoop_cons idle bw h dur t a it rest ha,
              workerLoop_cons idle bw h' dur t a it rest ha]
          cases hc : (coalesce bw (max t a) it false rest).event with
          | eos => simp
          | ev e =>
            simp only [hc]
            have hrest : rest.length ≤ n := by
              simpa [Nat.succ_le_succ_iff] using hlen
            have hrlen : (coalesce bw (max t a) it false rest).rest.length ≤ n :=
              le_trans (coalesce_rest_length_le bw (max t a) it false rest) hrest
            obtain ⟨hcalls, hreason⟩ :=
              ih ((coalesce bw (max t a) it false rest).time + dur e)
                (coalesce bw (max t a) it false rest).stop
                (coalesce bw (max t a) it false rest).rest hrlen
            simp [hcalls, hreason]
        · rw [workerLoop_cons_late idle bw h dur t a it rest ha,
              workerLoop_cons_late idle bw h' dur t a it rest ha]
          simp

/-- C1 counterexample.  The claim says the Dispatcher runs the Depletion
Protocol on every way the stream consumption terminates; but in `watcher`
the `_wait_for_depletion` call stands inside the `try:` block after the
`async for` loop, so a stream exception (or cancellation) jumps straight
to the `finally:` pool closure and depletion never runs: the shutdown
trace of a failed stream contains no depletion action. -/
theorem claim_C1_counterexample :
    ShutdownAction.deplete ∉ (watcher ([] : List (Nat × Nat)) (StreamOutcome.failed (0 : Nat))).2 := by
  decide

/-- C1 (amended): on normal exhaustion of the stream the Dispatcher runs
the Depletion Protocol and then closes the Worker Pool; on a stream error
or cancellation the Depletion Protocol is skipped, the Worker Pool is
still closed by the `finally:` block, and only afterwards does the error
propagate to the Dispatcher's caller. -/
theorem claim_C1 {ε : Type} (e : ε) (events : List (Nat × Nat)) :
    (watcher events (StreamOutcome.exhausted : StreamOutcome ε)).2 =
      [ShutdownAction.deplete, ShutdownAction.closePool] ∧
    (watcher events (StreamOutcome.failed e)).2 =
      [ShutdownAction.closePool, ShutdownAction.raiseErr e] :=
  ⟨rfl, rfl⟩

/-- C2: a worker whose queue holds a real event `e1` immediately followed
by the `EOS` marker and nothing else invokes the handler exactly once,
with `e1` (the marker does not replace the held real event), and then
terminates because the stop was recorded. -/
theorem claim_C2 {α ε : Type} (idle bw : Nat) (handler : α → Except ε Unit)
    (dur : α → Nat) (t0 t1 t2 : Nat) (e1 : α)
    (h1 : t1 < t0 + idle) (h2 : t2 < max t0 t1 + bw) :
    (workerLoop idle bw handler dur t0 false [(t1, Item.ev e1), (t2, Item.eos)]).calls = [e1] ∧
    (workerLoop idle bw handler dur t0 false [(t1, Item.ev e1), (t2, Item.eos)]).reason =
      ExitReason.stopRequested := by
  rw [workerLoop_cons idle bw handler dur t0 t1 (Item.ev e1) [(t2, Item.eos)] h1]
  simp [coalesce, h2, workerLoop_stop]

theorem claim_C2_witness :
    (0 : Nat) < 0 + 5 ∧ (0 : Nat) < max 0 0 + 1 ∧
    ((workerLoop 5 1 (fun _ : Nat => (Except.ok () : Except Unit Unit)) (fun _ => 0)
        0 false [(0, Item.ev 3), (0, Item.eos)]).calls = [3] ∧
     (workerLoop 5 1 (fun _ : Nat => (Except.ok () : Except Unit Unit)) (fun _ => 0)
        0 false [(0, Item.ev 3), (0, Item.eos)]).reason = ExitReason.stopRequested) :=
  ⟨by decide, by decide,
   claim_C2 5 1 (fun _ => Except.ok ()) (fun _ => 0) 0 0 0 3 (by decide) (by decide)⟩

/-- C3: two real events for the same key with the second arriving inside
the batch window, and nothing further, produce exactly one handler
invocation, with the newer event `e2` (the older un-dispatched `e1` is
discarded by coalescing); the worker then idles out. -/
theorem claim_C3 {α ε : Type} (idle bw : Nat) (handler : α → Except ε Unit)
    (dur : α → Nat) (t0 t1 t2 : Nat) (e1 e2 : α)
    (h1 : t1 < t0 + idle) (h2 : t2 < max t0 t1 + bw) :
    (workerLoop idle bw handler dur t0 false [(t1, Item.ev e1), (t2, Item.ev e2)]).calls = [e2] ∧
    (workerLoop idle bw handler dur t0 false [(t1, Item.ev e1), (t2, Item.ev e2)]).reason =
      ExitReason.idleTimeout := by
  rw [workerLoop_cons idle bw handler dur t0 t1 (Item.ev e1) [(t2, Item.ev e2)] h1]
  simp [coalesce, h2, workerLoop_nil]

theorem claim_C3_witness :
    (0 : Nat) < 0 + 5 ∧ (0 : Nat) < max 0 0 + 1 ∧
    ((workerLoop 5 1 (fun _ : Nat => (Except.ok () : Except Unit Unit)) (fun _ => 0)
        0 false [(0, Item.ev 1), (0, Item.ev 2)]).calls = [2] ∧
     (workerLoop 5 1 (fun _ : Nat => (Except.ok () : Except Unit Unit)) (fun _ => 0)
        0 false [(0, Item.ev 1), (0, Item.ev 2)]).reason = ExitReason.idleTimeout) :=
  ⟨by decide, by decide,
   claim_C3 5 1 (fun _ => Except.ok ()) (fun _ => 0) 0 0 0 1 2 (by decide) (by decide)⟩

/-- C4: on every exit path of a worker the key is removed from the queue
table before the worker returns, and the removal tolerates absence.
First conjunct: a full `worker` run — whatever exit reason its loop
produced (idle timeout, `EOS` candidate, stop request) — leaves the table
with no entry for its key.  Second conjunct: `delKey` on an absent key is
a no-op, the swallowed `KeyError`, never an error.  Third conjunct: in the
interleaving semantics the only transition under which a live worker
disappears (including exception or cancellation exits, which run the same
`finally:` block) leaves the table with no entry for that worker's key. -/
theorem claim_C4 {κ α ε : Type} [DecidableEq κ] :
    (∀ (idle bw : Nat) (handler : α → Except ε Unit) (dur : α → Nat)
        (queues : List (κ × List (Item α))) (key : κ) (t0 : Nat)
        (arrivals : List (Nat × Item α)),
      lookupTbl (worker idle bw handler dur queues key t0 arrivals).queues key = none) ∧
    (∀ (t : List (κ × List (Item α))) (k : κ), lookupTbl t k = none → delKey t k = t) ∧
    (∀ (s s' : SysState κ α) (k : κ), WStep s s' → k ∈ s.workers → k ∉ s'.workers →
      lookupTbl s'.table k = none) := by
  refine ⟨?_, ?_, ?_⟩
  · intro idle bw handler dur queues key t0 arrivals
    exact lookupTbl_delKey queues key
  · exact fun t k h => delKey_of_lookupTbl_none t k h
  · exact fun s s' k hstep hk hk' => step_worker_gone_removes_key s s' k hstep hk hk'

theorem claim_C4_witness :
    lookupTbl (worker 5 1 (fun _ : Nat => (Except.ok () : Except Unit Unit)) (fun _ => 0)
        [((0 : Nat), [Item.ev (7 : Nat)])] 0 0 [(0, Item.ev 7)]).queues 0 = none ∧
    delKey [((1 : Nat), [Item.ev (2 : Nat)])] 0 = [((1 : Nat), [Item.ev (2 : Nat)])] ∧
    lookupTbl (delKey [((0 : Nat), [Item.ev (3 : Nat)])] 0) 0 = none := by
  refine ⟨(claim_C4 (κ := Nat) (α := Nat) (ε := Unit)).1 5 1 _ _ _ 0 0 _,
          (claim_C4 (κ := Nat) (α := Nat) (ε := Unit)).2.1 _ 0 (by decide), ?_⟩
  have hstep : WStep (⟨[], [((0 : Nat), [Item.ev (3 : Nat)])], [0]⟩ : SysState Nat Nat)
      ⟨[], delKey [((0 : Nat), [Item.ev (3 : Nat)])] 0, ([0] : List Nat).erase 0⟩ :=
    WStep.terminate _ 0 (by decide)
  exact (claim_C4 (κ := Nat) (α := Nat) (ε := Unit)).2.2 _ _ 0 hstep (by decide) (by decide)

/-- C5: in every reachable interleaving of the watcher and the workers, at
most one live worker and at most one queue exist per key: the live
workers' keys are pairwise distinct and the queue table holds no duplicate
key.  The proof is an invariant of `WStep`, whose `dispatch` step spawns a
worker only in the `KeyError` branch — only when the key has no entry —
and whose `terminate` step is the only deletion, by the owning worker of
its own key. -/
theorem claim_C5 {κ α : Type} [DecidableEq κ] (events : List (κ × α)) (s : SysState κ α)
    (h : Relation.ReflTransGen WStep ⟨events, [], []⟩ s) :
    s.workers.Nodup ∧ (tblKeys s.table).Nodup := by
  obtain ⟨h1, h2, _⟩ := sysInv_reachable events s h
  exact ⟨h1, h2⟩

theorem claim_C5_witness :
    Relation.ReflTransGen WStep
      (⟨[((0 : Nat), (0 : Nat))], [], []⟩ : SysState Nat Nat)
      ⟨[], dispatchTable ([] : List (Nat × List (Item Nat))) 0 0, dispatchWorkers ([] : List (Nat × List (Item Nat))) [] 0⟩ ∧
    ((⟨[], dispatchTable ([] : List (Nat × List (Item Nat))) 0 0, dispatchWorkers ([] : List (Nat × List (Item Nat))) [] 0⟩ : SysState Nat Nat).workers.Nodup ∧
     (tblKeys (⟨[], dispatchTable ([] : List (Nat × List (Item Nat))) 0 0, dispatchWorkers ([] : List (Nat × List (Item Nat))) [] 0⟩ : SysState Nat Nat).table).Nodup) := by
  have hstep : WStep (⟨[(0, 0)], [], []⟩ : SysState Nat Nat)
      ⟨[], dispatchTable ([] : List (Nat × List (Item Nat))) 0 0, dispatchWorkers ([] : List (Nat × List (Item Nat))) [] 0⟩ :=
    WStep.dispatch _ 0 0 [] rfl
  have hreach := Relation.ReflTransGen.single hstep
  exact ⟨hreach, claim_C5 _ _ hreach⟩

/-- C6: a worker whose queue delivers only the `EOS` marker, with no real
event before it and none arriving during the batch window, never invokes
the handler and terminates: the marker itself stays the candidate and the
`if event is EOS: break` fires before dispatch. -/
theorem claim_C6 {α ε : Type} (idle bw : Nat) (handler : α → Except ε Unit)
    (dur : α → Nat) (t0 t1 : Nat)
    (h1 : t1 < t0 + idle) :
    (workerLoop idle bw handler dur t0 false [(t1, (Item.eos : Item α))]).calls = ([] : List α) ∧
    (workerLoop idle bw handler dur t0 false [(t1, (Item.eos : Item α))]).reason =
      ExitReason.eosCandidate := by
  rw [workerLoop_cons idle bw handler dur t0 t1 Item.eos [] h1]
  simp [coalesce]

theorem claim_C6_witness :
    (0 : Nat) < 0 + 5 ∧
    ((workerLoop 5 1 (fun _ : Nat => (Except.ok () : Except Unit Unit)) (fun _ => 0)
        0 false [(0, (Item.eos : Item Nat))]).calls = ([] : List Nat) ∧
     (workerLoop 5 1 (fun _ : Nat => (Except.ok () : Except Unit Unit)) (fun _ => 0)
        0 false [(0, (Item.eos : Item Nat))]).reason = ExitReason.eosCandidate) :=
  ⟨by decide, claim_C6 5 1 (fun _ => Except.ok ()) (fun _ => 0) 0 0 (by decide)⟩

/-- C7: a handler failure is caught, logged and swallowed.  First part: a
handler that raises on `e1` still lets the same worker dispatch a later
`e2` normally — the run calls the handler on `e1` then `e2`, logs exactly
the one caught error, and ends by the normal idle timeout.  Second part:
the events dispatched and the exit reason of any worker run do not depend
on the handler's outcomes at all, so a failure can never propagate out of
the dispatch step into the loop, the watcher or other workers. -/
theorem claim_C7 {α ε : Type} (idle bw : Nat) (handler handler' : α → Except ε Unit)
    (dur : α → Nat) (t0 t1 t2 : Nat) (e1 e2 : α) (err : ε)
    (hfail : handler e1 = Except.error err) (hok : handler e2 = Except.ok ())
    (h1 : t1 < t0 + idle)
    (h2 : ¬ t2 < max t0 t1 + bw)
    (h3 : t2 < max t0 t1 + bw + dur e1 + idle) :
    ((workerLoop idle bw handler dur t0 false [(t1, Item.ev e1), (t2, Item.ev e2)]).calls = [e1, e2] ∧
     (workerLoop idle bw handler dur t0 false [(t1, Item.ev e1), (t2, Item.ev e2)]).logs = [err] ∧
     (workerLoop idle bw handler dur t0 false [(t1, Item.ev e1), (t2, Item.ev e2)]).reason =
       ExitReason.idleTimeout) ∧
    (∀ (t : Nat) (ss : Bool) (pending : List (Nat × Item α)),
      (workerLoop idle bw handler dur t ss pending).calls =
        (workerLoop idle bw handler' dur t ss pending).calls ∧
      (workerLoop idle bw handler dur t ss pending).reason =
        (workerLoop idle bw handler' dur t ss pending).reason) := by
  constructor
  · rw [workerLoop_cons idle bw handler dur t0 t1 (Item.ev e1) [(t2, Item.ev e2)] h1]
    simp [coalesce, h2, h3, workerLoop_cons, workerLoop_nil, hfail, hok]
  · exact fun t ss pending =>
      workerLoop_handler_indep idle bw handler handler' dur pending.length t ss pending le_rfl

/-- C8: a worker whose queue stays empty beyond `worker_idle_timeout`
while it waits terminates by the idle timeout with no handler invocation,
and its queue entry is removed from the table by the `finally:` block. -/
theorem claim_C8 {κ α ε : Type} [DecidableEq κ] (idle bw : Nat)
    (handler : α → Except ε Unit) (dur : α → Nat)
    (queues : List (κ × List (Item α))) (key : κ) (t0 : Nat)
    (arrivals : List (Nat × Item α))
    (hquiet : ∀ p ∈ arrivals, t0 + idle ≤ p.1) :
    (worker idle bw handler dur queues key t0 arrivals).calls = [] ∧
    (worker idle bw handler dur queues key t0 arrivals).reason = ExitReason.idleTimeout ∧
    lookupTbl (worker idle bw handler dur queues key t0 arrivals).queues key = none := by
  have hloop : workerLoop idle bw handler dur t0 false arrivals =
      ⟨[], [], ExitReason.idleTimeout⟩ := by
    cases arrivals with
    | nil => exact workerLoop_nil idle bw handler dur t0
    | cons p rest =>
      obtain ⟨a, it⟩ := p
      have ha : ¬ a < t0 + idle :=
        Nat.not_lt.mpr (hquiet (a, it) (List.mem_cons_self _ _))
      exact workerLoop_cons_late idle bw handler dur t0 a it rest ha
  refine ⟨?_, ?_, lookupTbl_delKey queues key⟩ <;> simp [worker, hloop]

theorem claim_C8_witness :
    (∀ p ∈ [((7 : Nat), Item.ev (1 : Nat))], (0 : Nat) + 5 ≤ p.1) ∧
    ((worker 5 1 (fun _ : Nat => (Except.ok () : Except Unit Unit)) (fun _ => 0)
        [((0 : Nat), [Item.ev (1 : Nat)])] 0 0 [(7, Item.ev 1)]).calls = [] ∧
     (worker 5 1 (fun _ : Nat => (Except.ok () : Except Unit Unit)) (fun _ => 0)
        [((0 : Nat), [Item.ev (1 : Nat)])] 0 0 [(7, Item.ev 1)]).reason =
       ExitReason.idleTimeout ∧
     lookupTbl (worker 5 1 (fun _ : Nat => (Except.ok () : Except Unit Unit)) (fun _ => 0)
        [((0 : Nat), [Item.ev (1 : Nat)])] 0 0 [(7, Item.ev 1)]).queues 0 = none) :=
  ⟨by decide,
   claim_C8 5 1 (fun _ => Except.ok ()) (fun _ => 0) [(0, [Item.ev 1])] 0 0
     [(7, Item.ev 1)] (by decide)⟩

/-- C9: after the depletion poll loop ends, the warning exists iff the
table observed at the loop's final check is non-empty, and when it exists
it names exactly the keys still present; `_wait_for_depletion` then simply
returns, after which the watcher's shutdown trace shows the pool closure
following depletion. -/
theorem claim_C9 {κ : Type} (obs : Nat → List κ × Nat) :
    (wait_for_depletion obs = none ↔ (obs (pollEnd obs)).1 = []) ∧
    (∀ ks : List κ, wait_for_depletion obs = some ks ↔
      ((obs (pollEnd obs)).1 = ks ∧ ks ≠ [])) ∧
    watcherShutdownTrace (StreamOutcome.exhausted : StreamOutcome Unit) =
      [ShutdownAction.deplete, ShutdownAction.closePool] := by
  unfold wait_for_depletion
  refine ⟨?_, ?_, rfl⟩
  · cases h : (obs (pollEnd obs)).1 <;> simp [h]
  · intro ks
    cases h : (obs (pollEnd obs)).1 with
    | nil => simp [h]
    | cons a l =>
      simp only [h, List.isEmpty_cons, if_neg Bool.false_ne_true, Option.some_inj]
      constructor
      · rintro rfl
        exact ⟨rfl, by simp⟩
      · rintro ⟨rfl, _⟩
        rfl

/-- C10: when the first item a worker receives is the `EOS` marker and a
real event `e2` arrives within the batch window, the stop request is
discarded: `shouldstop` is set only when the marker arrives as a later
item of the batching loop, not when the marker is the superseded initial
candidate.  The worker dispatches `e2`, returns to waiting, and even
dispatches a yet later `e3` instead of terminating; it ends by the idle
timeout, not by a stop. -/
theorem claim_C10 {α ε : Type} (idle bw : Nat) (handler : α → Except ε Unit)
    (dur : α → Nat) (t0 t1 t2 t3 : Nat) (e2 e3 : α)
    (h1 : t1 < t0 + idle)
    (h2 : t2 < max t0 t1 + bw)
    (h3 : ¬ t3 < max (max t0 t1) t2 + bw)
    (h4 : t3 < max (max t0 t1) t2 + bw + dur e2 + idle) :
    (workerLoop idle bw handler dur t0 false
      [(t1, Item.eos), (t2, Item.ev e2), (t3, Item.ev e3)]).calls = [e2, e3] ∧
    (workerLoop idle bw handler dur t0 false
      [(t1, Item.eos), (t2, Item.ev e2), (t3, Item.ev e3)]).reason =
      ExitReason.idleTimeout := by
  rw [workerLoop_cons idle bw handler dur t0 t1 Item.eos
    [(t2, Item.ev e2), (t3, Item.ev e3)] h1]
  simp [coalesce, h2, h3, workerLoop_cons, h4, workerLoop_nil]

theorem claim_C10_witness :
    (0 : Nat) < 0 + 5 ∧ (0 : Nat) < max 0 0 + 1 ∧
    ¬ (3 : Nat) < max (max 0 0) 0 + 1 ∧ (3 : Nat) < max (max 0 0) 0 + 1 + 0 + 5 ∧
    ((workerLoop 5 1 (fun _ : Nat => (Except.ok () : Except Unit Unit)) (fun _ => 0)
        0 false [(0, Item.eos), (0, Item.ev 2), (3, Item.ev 7)]).calls = [2, 7] ∧
     (workerLoop 5 1 (fun _ : Nat => (Except.ok () : Except Unit Unit)) (fun _ => 0)
        0 false [(0, Item.eos), (0, Item.ev 2), (3, Item.ev 7)]).reason =
       ExitReason.idleTimeout) :=
  ⟨by decide, by decide, by decide, by decide,
   claim_C10 5 1 (fun _ => Except.ok ()) (fun _ => 0) 0 0 0 3 2 7
     (by decide) (by decide) (by decide) (by decide)⟩

theorem claim_C7_witness :
    ((fun n : Nat => if n = 1 then (Except.error 9 : Except Nat Unit) else Except.ok ()) 1 =
      Except.error 9) ∧
    ((fun n : Nat => if n = 1 then (Except.error 9 : Except Nat Unit) else Except.ok ()) 2 =
      Except.ok ()) ∧
    (0 : Nat) < 0 + 5 ∧ ¬ (3 : Nat) < max 0 0 + 1 ∧ (3 : Nat) < max 0 0 + 1 + 0 + 5 ∧
    (((workerLoop 5 1
        (fun n : Nat => if n = 1 then (Except.error 9 : Except Nat Unit) else Except.ok ())
        (fun _ => 0) 0 false [(0, Item.ev 1), (3, Item.ev 2)]).calls = [1, 2] ∧
      (workerLoop 5 1
        (fun n : Nat => if n = 1 then (Except.error 9 : Except Nat Unit) else Except.ok ())
        (fun _ => 0) 0 false [(0, Item.ev 1), (3, Item.ev 2)]).logs = [9] ∧
      (workerLoop 5 1
        (fun n : Nat => if n = 1 then (Except.error 9 : Except Nat Unit) else Except.ok ())
        (fun _ => 0) 0 false [(0, Item.ev 1), (3, Item.ev 2)]).reason =
        ExitReason.idleTimeout) ∧
     (∀ (t : Nat) (ss : Bool) (pending : List (Nat × Item Nat)),
       (workerLoop 5 1
         (fun n : Nat => if n = 1 then (Except.error 9 : Except Nat Unit) else Except.ok ())
         (fun _ => 0) t ss pending).calls =
         (workerLoop 5 1 (fun _ : Nat => (Except.ok () : Except Nat Unit))
           (fun _ => 0) t ss pending).calls ∧
       (workerLoop 5 1
         (fun n : Nat => if n = 1 then (Except.error 9 : Except Nat Unit) else Except.ok ())
         (fun _ => 0) t ss pending).reason =
         (workerLoop 5 1 (fun _ : Nat => (Except.ok () : Except Nat Unit))
           (fun _ => 0) t ss pending).reason)) :=
  ⟨rfl, rfl, by decide, by decide, by decide,
   claim_C7 5 1 (fun n => if n = 1 then Except.error 9 else Except.ok ())
     (fun _ => Except.ok ()) (fun _ => 0) 0 0 3 1 2 9 rfl rfl
     (by decide) (by decide) (by decide)⟩

end KopfQueueing
